import Mathlib

/-!
Shallow embedding of the `term-core` crate (src/crates/term-core/src/lib.rs):
the persisted state store (favorites, recents, tags, profiles) and the
bounded fuzzy directory search, plus an event-trace model of the lock
discipline of the mutating operations.

Paths reaching the store are already normalized strings (normalization is an
external collaborator); the system clock (`Utc::now().timestamp()`), the
generated UUID (`Uuid::new_v4()`), the filesystem walk and the fuzzy matcher
(`SkimMatcherV2`) are modelled as explicit parameters.
-/

/-- `RecentEntry` of the source: a path and its last-opened Unix timestamp. -/
structure RecentEntry where
  path : String
  last_opened_utc : Int
  deriving DecidableEq, Repr

/-- `TaggedPath` of the source. -/
structure TaggedPath where
  path : String
  tag : String
  color : String
  deriving DecidableEq, Repr

/-- `LaunchProfile` of the source; the UUID is modelled as a string. -/
structure LaunchProfile where
  id : String
  name : String
  command : Option String
  working_dir : Option String
  terminal : Option String
  windows : Nat
  deriving DecidableEq, Repr

/-- `SearchResult` of the source. -/
structure SearchResult where
  path : String
  name : String
  score : Int
  deriving DecidableEq, Repr

/-- `PersistedState` of the source: the four collections of the store. -/
structure PersistedState where
  favorites : List String
  recents : List RecentEntry
  tags : List TaggedPath
  profiles : List LaunchProfile
  deriving DecidableEq, Repr

/-- `PersistedState::default()`: all four collections empty. -/
def emptyState : PersistedState := ⟨[], [], [], []⟩

/-- Comparator of `sort_by(|a, b| b.last_opened_utc.cmp(&a.last_opened_utc))`:
`a` may stay before `b` exactly when `b.last_opened_utc ≤ a.last_opened_utc`. -/
def recentGE (a b : RecentEntry) : Prop := b.last_opened_utc ≤ a.last_opened_utc

instance : DecidableRel recentGE := fun a b =>
  inferInstanceAs (Decidable (b.last_opened_utc ≤ a.last_opened_utc))

/-- The stable descending-by-time sort used by `touch_recent` and
`list_recent_directories`. -/
def sortRecents (l : List RecentEntry) : List RecentEntry := l.insertionSort recentGE

/-- `list_recent_directories()`: clone of `recents` sorted most-recent first. -/
def list_recent_directories (s : PersistedState) : List RecentEntry :=
  sortRecents s.recents

/-- `touch_recent(path)` (in-memory part): drop entries for `path`, append a
fresh entry stamped `now`, and when the collection exceeds 100 sort it
descending by time and truncate to 100. -/
def touch_recent (s : PersistedState) (path : String) (now : Int) : PersistedState :=
  let kept := s.recents.filter (fun e => e.path != path)
  let pushed := kept ++ [⟨path, now⟩]
  let recents := if 100 < pushed.length then (sortRecents pushed).take 100 else pushed
  { s with recents := recents }

/-- Folding `touch_recent` over a list of (path, timestamp) calls. -/
def touchAll (s : PersistedState) (l : List (String × Int)) : PersistedState :=
  l.foldl (fun st pt => touch_recent st pt.1 pt.2) s

/-- Each path occurs at most once in a recents collection. -/
def pathsNodup (l : List RecentEntry) : Prop := (l.map RecentEntry.path).Nodup

/-- `add_favorite(path)` (in-memory part): append unless already present by
string equality. -/
def add_favorite (s : PersistedState) (path : String) : PersistedState :=
  if path ∈ s.favorites then s
  else { s with favorites := s.favorites ++ [path] }

/-- `remove_favorite(path)` (in-memory part): retain all entries different
from `path`. -/
def remove_favorite (s : PersistedState) (path : String) : PersistedState :=
  { s with favorites := s.favorites.filter (fun p => p != path) }

/-- `u8::to_ascii_lowercase` on one character: fold only ASCII `A`–`Z`. -/
def asciiToLower (c : Char) : Char :=
  if 'A' ≤ c ∧ c ≤ 'Z' then Char.ofNat (c.toNat + 32) else c

/-- Pointwise ASCII case-insensitive character comparison. -/
def charFoldEq (a b : Char) : Bool := asciiToLower a == asciiToLower b

/-- ASCII case-insensitive equality of character lists. -/
def listFoldEq : List Char → List Char → Bool
  | [], [] => true
  | a :: moreA, b :: moreB => charFoldEq a b && listFoldEq moreA moreB
  | _, _ => false

/-- `str::eq_ignore_ascii_case`. -/
def eqIgnoreAsciiCase (a b : String) : Bool := listFoldEq a.data b.data

/-- The body of `set_tag`: replace the color of the first entry matching
(path exactly, tag ASCII-case-insensitively), else append a new entry. -/
def setTagList (path tag c : String) : List TaggedPath → List TaggedPath
  | [] => [⟨path, tag, c⟩]
  | e :: rest =>
    if e.path == path && eqIgnoreAsciiCase e.tag tag then { e with color := c } :: rest
    else e :: setTagList path tag c rest

/-- `set_tag(path, tag, color)` (in-memory part); the color defaults to
`#0a84ff` when omitted. -/
def set_tag (s : PersistedState) (path tag : String) (color : Option String) :
    PersistedState :=
  { s with tags := setTagList path tag (color.getD "#0a84ff") s.tags }

/-- `remove_tag(path, tag)` (in-memory part). -/
def remove_tag (s : PersistedState) (path tag : String) : PersistedState :=
  { s with tags := s.tags.filter (fun e => !(e.path == path && eqIgnoreAsciiCase e.tag tag)) }

/-- `str::trim`: strip leading and trailing whitespace. -/
def strTrim (s : String) : String :=
  String.mk ((s.data.dropWhile Char.isWhitespace).reverse.dropWhile Char.isWhitespace).reverse

/-- The `find`/replace-else-push of `save_profile`: replace the first profile
with the same id in place, else append. -/
def upsertProfile (prof : LaunchProfile) : List LaunchProfile → List LaunchProfile
  | [] => [prof]
  | q :: rest => if q.id == prof.id then prof :: rest else q :: upsertProfile prof rest

/-- `save_profile` (in-memory part): validation, clamping, id defaulting and
upsert.  `freshId` stands for the `Uuid::new_v4()` drawn when `id` is absent. -/
def save_profile (s : PersistedState) (id : Option String) (freshId : String) (name : String)
    (command working_dir terminal : Option String) (windows : Option Nat) :
    Except String (PersistedState × LaunchProfile) :=
  if strTrim name = "" then Except.error "profile name required"
  else
    let pid := id.getD freshId
    let prof : LaunchProfile :=
      ⟨pid, strTrim name, command, working_dir, terminal, min (max (windows.getD 1) 1) 10⟩
    Except.ok ({ s with profiles := upsertProfile prof s.profiles }, prof)

/-- `delete_profile(id)` (in-memory part): retain profiles with a different
id; fail with the not-found error when nothing was removed. -/
def delete_profile (s : PersistedState) (id : String) : Except String PersistedState :=
  let remaining := s.profiles.filter (fun q => q.id != id)
  if remaining.length = s.profiles.length then Except.error "profile not found"
  else Except.ok { s with profiles := remaining }

/-- `entry.metadata()` result, as far as the search consumes it. -/
structure WalkMeta where
  is_dir : Bool
  deriving DecidableEq, Repr

/-- One entry produced by the bounded filesystem walk.  `file_name` is `none`
when `file_name().to_str()` fails (not valid UTF-8); `metadata` is `none` when
`entry.metadata()` errs. -/
structure WalkEntry where
  path : String
  file_name : Option String
  metadata : Option WalkMeta
  deriving DecidableEq, Repr

/-- `usize::saturating_mul(2)` on a 64-bit target. -/
def usizeSatMul2 (n : Nat) : Nat := min (n * 2) (2 ^ 64 - 1)

/-- The body of one iteration of the walk loop of `search_directories`:
`none` when the entry is skipped (unreadable metadata via `continue`, not a
directory, name not valid UTF-8, or no fuzzy match), otherwise the scored
result that is pushed. -/
def entryScore (score : String → String → Option Int) (query : String) (e : WalkEntry) :
    Option SearchResult :=
  match e.metadata with
  | none => none
  | some md =>
    if !md.is_dir then none
    else
      match e.file_name with
      | none => none
      | some nm =>
        match score nm query with
        | none => none
        | some sc => some ⟨e.path, nm, sc⟩

/-- The candidate-gathering loop of `search_directories`: stop once `cap`
results are collected; otherwise process entries in walk order, skipping or
pushing according to `entryScore`. -/
def searchLoop (score : String → String → Option Int) (query : String) (cap : Nat) :
    List WalkEntry → List SearchResult → List SearchResult
  | [], acc => acc
  | e :: rest, acc =>
    if cap ≤ acc.length then acc
    else
      match entryScore score query e with
      | none => searchLoop score query cap rest acc
      | some r => searchLoop score query cap rest (acc ++ [r])

/-- Comparator of `sort_by(|a, b| b.score.cmp(&a.score).then(a.name.cmp(&b.name)))`:
`a` may stay before `b` when its score is larger, or the scores tie and its
name is not larger. -/
def rankRel (a b : SearchResult) : Prop :=
  b.score < a.score ∨ (a.score = b.score ∧ a.name ≤ b.name)

instance : DecidableRel rankRel := fun a b =>
  inferInstanceAs (Decidable (b.score < a.score ∨ (a.score = b.score ∧ a.name ≤ b.name)))

/-- The stable ranking sort of `search_directories`. -/
def sortResults (l : List SearchResult) : List SearchResult := l.insertionSort rankRel

/-- `search_directories(path, query, limit)` over an abstract walk and an
abstract matcher: validate the query, gather up to `limit.saturating_mul(2)`
candidates, rank them and truncate to `limit.max(1)`. -/
def search_directories (walk : List WalkEntry) (score : String → String → Option Int)
    (query : String) (limit : Nat) : Except String (List SearchResult) :=
  if strTrim query = "" then Except.error "query required"
  else
    let results := searchLoop score query (usizeSatMul2 limit) walk []
    Except.ok ((sortResults results).take (max limit 1))

/-- Events of the lock/filesystem trace of one store operation. -/
inductive LockEvent where
  | acquire
  | release
  | fsWrite
  deriving DecidableEq, Repr

/-- Trace of `Store::persist`: it locks the mutex itself, then runs
`create_dir_all` and `fs::write` before the guard drops. -/
def persistTrace : List LockEvent := [.acquire, .fsWrite, .fsWrite, .release]

/-- Trace of the persist-reaching branch shared by every mutating operation:
the caller's own guard is still alive around the whole of `persist()`. -/
def mutateTrace : List LockEvent := [LockEvent.acquire] ++ persistTrace ++ [LockEvent.release]

/-- Trace of `add_favorite`: persistence is attempted only when the path was
actually appended. -/
def addFavoriteTrace (alreadyPresent : Bool) : List LockEvent :=
  if alreadyPresent then [.acquire, .release] else mutateTrace

/-- Trace of `remove_favorite`. -/
def removeFavoriteTrace : List LockEvent := mutateTrace

/-- Trace of `touch_recent`. -/
def touchRecentTrace : List LockEvent := mutateTrace

/-- Trace of `set_tag`. -/
def setTagTrace : List LockEvent := mutateTrace

/-- Trace of `remove_tag`. -/
def removeTagTrace : List LockEvent := mutateTrace

/-- Trace of `save_profile`: the name validation bails before the lock. -/
def saveProfileTrace (validName : Bool) : List LockEvent :=
  if validName then mutateTrace else []

/-- Trace of `delete_profile`: the not-found bail drops the guard without
persisting. -/
def deleteProfileTrace (found : Bool) : List LockEvent :=
  if found then mutateTrace else [.acquire, .release]

/-- Starting from lock depth `d`, every `fsWrite` of the trace happens at
depth zero (the mutex is not held across any filesystem write). -/
def writesOutsideLock : Nat → List LockEvent → Bool
  | _, [] => true
  | d, .acquire :: r => writesOutsideLock (d + 1) r
  | d, .release :: r => writesOutsideLock (d - 1) r
  | d, .fsWrite :: r => d == 0 && writesOutsideLock d r

/-- Starting from lock depth `d`, no `acquire` of the trace happens while the
(non-reentrant) mutex is already held. -/
def locksAreUnnested : Nat → List LockEvent → Bool
  | _, [] => true
  | d, .acquire :: r => d == 0 && locksAreUnnested (d + 1) r
  | d, .release :: r => locksAreUnnested (d - 1) r
  | d, .fsWrite :: r => locksAreUnnested d r

/-- Outcome of the `STORE.persist()` attempt that follows a mutation. -/
def persistOutcome (writeOk : Bool) : Except String Unit :=
  if writeOk then Except.ok () else Except.error "write failed"

/-- Full `add_favorite` call: mutate, attempt persistence, drop its result
(`STORE.persist().ok()`), return `Ok(())`. -/
def add_favorite_call (writeOk : Bool) (s : PersistedState) (path : String) :
    PersistedState × Except String Unit :=
  if path ∈ s.favorites then (s, Except.ok ())
  else
    let s2 : PersistedState := { s with favorites := s.favorites ++ [path] }
    let _ := persistOutcome writeOk
    (s2, Except.ok ())

/-- Full `remove_favorite` call with the persistence attempt dropped. -/
def remove_favorite_call (writeOk : Bool) (s : PersistedState) (path : String) :
    PersistedState × Except String Unit :=
  let s2 := remove_favorite s path
  let _ := persistOutcome writeOk
  (s2, Except.ok ())

/-- Full `touch_recent` call with the persistence attempt dropped. -/
def touch_recent_call (writeOk : Bool) (s : PersistedState) (path : String) (now : Int) :
    PersistedState × Except String Unit :=
  let s2 := touch_recent s path now
  let _ := persistOutcome writeOk
  (s2, Except.ok ())

/-- Full `set_tag` call with the persistence attempt dropped. -/
def set_tag_call (writeOk : Bool) (s : PersistedState) (path tag : String)
    (color : Option String) : PersistedState × Except String Unit :=
  let s2 := set_tag s path tag color
  let _ := persistOutcome writeOk
  (s2, Except.ok ())

/-- Full `remove_tag` call with the persistence attempt dropped. -/
def remove_tag_call (writeOk : Bool) (s : PersistedState) (path tag : String) :
    PersistedState × Except String Unit :=
  let s2 := remove_tag s path tag
  let _ := persistOutcome writeOk
  (s2, Except.ok ())

/-- Full `save_profile` call: on success, attempt persistence, drop its
result and return the stored record. -/
def save_profile_call (writeOk : Bool) (s : PersistedState) (id : Option String)
    (freshId name : String) (command working_dir terminal : Option String)
    (windows : Option Nat) : PersistedState × Except String LaunchProfile :=
  match save_profile s id freshId name command working_dir terminal windows with
  | Except.error e => (s, Except.error e)
  | Except.ok (s2, prof) =>
    let _ := persistOutcome writeOk
    (s2, Except.ok prof)

/-- Full `delete_profile` call: on success, attempt persistence and drop its
result. -/
def delete_profile_call (writeOk : Bool) (s : PersistedState) (id : String) :
    PersistedState × Except String Unit :=
  match delete_profile s id with
  | Except.error e => (s, Except.error e)
  | Except.ok s2 =>
    let _ := persistOutcome writeOk
    (s2, Except.ok ())

/-- A last-opened record built from one (path, timestamp) touch call. -/
def mkRecent (pt : String × Int) : RecentEntry := ⟨pt.1, pt.2⟩

/-- A one-directory walk used as a concrete search input. -/
def demoWalk : List WalkEntry := [⟨"/r/proj", some "proj", some ⟨true⟩⟩]

/-- A concrete matcher: the name `proj` matches the query `p` with score 1. -/
def demoScore : String → String → Option Int :=
  fun nm q => if nm == "proj" && q == "p" then some 1 else none

/-- 105 touch calls on distinct paths `"0"`, …, `"104"` at strictly
increasing timestamps. -/
def demoCalls : List (String × Int) := (List.range 105).map (fun i => (toString i, (i : Int)))

/-!  Helper lemmas. -/

theorem searchLoop_stop (score : String → String → Option Int) (query : String)
    (cap : Nat) (l : List WalkEntry) (acc : List SearchResult) (h : cap ≤ acc.length) :
    searchLoop score query cap l acc = acc := by
  cases l with
  | nil => rfl
  | cons e rest => simp [searchLoop, h]

theorem entryScore_invalid (score : String → String → Option Int) (query : String)
    (e : WalkEntry) (hbad : e.file_name = none) : entryScore score query e = none := by
  unfold entryScore
  cases hm : e.metadata with
  | none => rfl
  | some md =>
    cases hd : md.is_dir
    · simp [hd]
    · simp [hd, hbad]

theorem entryScore_no_match (score : String → String → Option Int) (query : String)
    (e : WalkEntry) (h : ∀ nm, e.file_name = some nm → score nm query = none) :
    entryScore score query e = none := by
  unfold entryScore
  cases hm : e.metadata with
  | none => rfl
  | some md =>
    cases hd : md.is_dir
    · simp [hd]
    · cases hf : e.file_name with
      | none => simp [hd, hf]
      | some nm => simp [hd, hf, h nm hf]

theorem searchLoop_skip_invalid (score : String → String → Option Int) (query : String)
    (cap : Nat) (bad : WalkEntry) (hbad : bad.file_name = none) :
    ∀ (l1 l2 : List WalkEntry) (acc : List SearchResult),
      searchLoop score query cap (l1 ++ bad :: l2) acc =
        searchLoop score query cap (l1 ++ l2) acc := by
  intro l1
  induction l1 with
  | nil =>
    intro l2 acc
    simp only [List.nil_append]
    by_cases h : cap ≤ acc.length
    · rw [searchLoop_stop _ _ _ _ _ h, searchLoop_stop _ _ _ _ _ h]
    · rw [searchLoop, if_neg h, entryScore_invalid score query bad hbad]
  | cons e rest ih =>
    intro l2 acc
    simp only [List.cons_append, searchLoop]
    by_cases h : cap ≤ acc.length
    · rw [if_pos h, if_pos h]
    · rw [if_neg h, if_neg h]
      cases hs : entryScore score query e with
      | none => exact ih l2 acc
      | some r => exact ih l2 (acc ++ [r])

theorem searchLoop_no_match (score : String → String → Option Int) (query : String)
    (cap : Nat) : ∀ (l : List WalkEntry),
    (∀ e ∈ l, ∀ nm, e.file_name = some nm → score nm query = none) →
    ∀ acc, searchLoop score query cap l acc = acc := by
  intro l
  induction l with
  | nil => intro _ acc; rfl
  | cons e rest ih =>
    intro h acc
    rw [searchLoop]
    by_cases hc : cap ≤ acc.length
    · rw [if_pos hc]
    · rw [if_neg hc, entryScore_no_match score query e (h e (by simp))]
      exact ih (fun x hx => h x (by simp [hx])) acc

instance : IsTotal SearchResult rankRel := ⟨fun a b => by
  unfold rankRel
  rcases lt_trichotomy a.score b.score with h | h | h
  · exact Or.inr (Or.inl h)
  · rcases le_total a.name b.name with hn | hn
    · exact Or.inl (Or.inr ⟨h, hn⟩)
    · exact Or.inr (Or.inr ⟨h.symm, hn⟩)
  · exact Or.inl (Or.inl h)⟩

instance : IsTrans SearchResult rankRel := ⟨fun a b c hab hbc => by
  unfold rankRel at *
  rcases hab with h1 | ⟨h1, hn1⟩
  · rcases hbc with h2 | ⟨h2, hn2⟩
    · exact Or.inl (h2.trans h1)
    · refine Or.inl ?_
      rw [← h2]
      exact h1
  · rcases hbc with h2 | ⟨h2, hn2⟩
    · refine Or.inl ?_
      rw [h1]
      exact h2
    · exact Or.inr ⟨h1.trans h2, hn1.trans hn2⟩⟩

theorem setTagList_no_match (path tag c : String) (l : List TaggedPath)
    (h : ∀ e ∈ l, ¬(e.path = path ∧ eqIgnoreAsciiCase e.tag tag = true)) :
    setTagList path tag c l = l ++ [⟨path, tag, c⟩] := by
  induction l with
  | nil => rfl
  | cons e rest ih =>
    have hcond : ¬((e.path == path && eqIgnoreAsciiCase e.tag tag) = true) := by
      simp only [Bool.and_eq_true, beq_iff_eq]
      exact h e (by simp)
    simp only [setTagList, if_neg hcond, List.cons_append]
    exact congrArg (e :: ·) (ih (fun x hx => h x (by simp [hx])))

theorem setTagList_skip (path tag c : String) (l1 l2 : List TaggedPath)
    (h : ∀ e ∈ l1, ¬(e.path = path ∧ eqIgnoreAsciiCase e.tag tag = true)) :
    setTagList path tag c (l1 ++ l2) = l1 ++ setTagList path tag c l2 := by
  induction l1 with
  | nil => simp
  | cons e rest ih =>
    have hcond : ¬((e.path == path && eqIgnoreAsciiCase e.tag tag) = true) := by
      simp only [Bool.and_eq_true, beq_iff_eq]
      exact h e (by simp)
    simp only [List.cons_append, setTagList, if_neg hcond]
    exact congrArg (e :: ·) (ih (fun x hx => h x (by simp [hx])))

theorem upsertProfile_append (prof : LaunchProfile) (l : List LaunchProfile)
    (h : ∀ q ∈ l, q.id ≠ prof.id) : upsertProfile prof l = l ++ [prof] := by
  induction l with
  | nil => rfl
  | cons q rest ih =>
    have hq : ¬ (q.id == prof.id) = true := by
      simp only [beq_iff_eq]
      exact h q (by simp)
    simp only [upsertProfile, if_neg hq, List.cons_append]
    exact congrArg (q :: ·) (ih (fun x hx => h x (by simp [hx])))

theorem upsertProfile_replace (prof q : LaunchProfile) (l1 l2 : List LaunchProfile)
    (h1 : ∀ x ∈ l1, x.id ≠ prof.id) (hq : q.id = prof.id) :
    upsertProfile prof (l1 ++ q :: l2) = l1 ++ prof :: l2 := by
  induction l1 with
  | nil =>
    simp only [List.nil_append, upsertProfile]
    rw [if_pos (by simp [hq])]
  | cons x rest ih =>
    have hx : ¬ (x.id == prof.id) = true := by
      simp only [beq_iff_eq]
      exact h1 x (by simp)
    simp only [List.cons_append, upsertProfile, if_neg hx]
    exact congrArg (x :: ·) (ih (fun y hy => h1 y (by simp [hy])))

theorem touchAll_append (s : PersistedState) (l1 l2 : List (String × Int)) :
    touchAll s (l1 ++ l2) = touchAll (touchAll s l1) l2 :=
  List.foldl_append _ _ l1 l2

theorem recents_filter_fresh (l : List RecentEntry) (p : String)
    (h : ∀ x ∈ l, x.path ≠ p) : l.filter (fun e => e.path != p) = l := by
  rw [List.filter_eq_self]
  intro a ha
  simp only [bne_iff_ne, ne_eq]
  exact h a ha

theorem orderedInsert_append_of_not_rel (a : RecentEntry) :
    ∀ (l : List RecentEntry), (∀ x ∈ l, ¬ recentGE a x) →
      l.orderedInsert recentGE a = l ++ [a] := by
  intro l
  induction l with
  | nil => intro _; rfl
  | cons x rest ih =>
    intro h
    have hx : ¬ recentGE a x := h x (by simp)
    simp only [List.orderedInsert, if_neg hx, List.cons_append]
    exact congrArg (x :: ·) (ih (fun y hy => h y (by simp [hy])))

theorem sortRecents_ascending : ∀ (l : List RecentEntry),
    l.Pairwise (fun x y => x.last_opened_utc < y.last_opened_utc) →
    sortRecents l = l.reverse := by
  intro l
  induction l with
  | nil => intro _; rfl
  | cons a rest ih =>
    intro h
    rw [List.pairwise_cons] at h
    unfold sortRecents at *
    simp only [List.insertionSort]
    rw [ih h.2]
    rw [orderedInsert_append_of_not_rel a rest.reverse ?_]
    · simp
    · intro x hx
      have hmem : x ∈ rest := by simpa using hx
      have hlt := h.1 x hmem
      unfold recentGE
      omega

theorem sortRecents_push_max (a : RecentEntry) : ∀ (l : List RecentEntry),
    l.Pairwise (fun x y => y.last_opened_utc < x.last_opened_utc) →
    (∀ x ∈ l, x.last_opened_utc < a.last_opened_utc) →
    sortRecents (l ++ [a]) = a :: l := by
  intro l
  induction l with
  | nil => intro _ _; rfl
  | cons x rest ih =>
    intro hdesc hlt
    rw [List.pairwise_cons] at hdesc
    unfold sortRecents at *
    simp only [List.cons_append, List.insertionSort]
    show List.orderedInsert recentGE x (List.insertionSort recentGE (rest ++ [a])) = a :: x :: rest
    rw [ih hdesc.2 (fun y hy => hlt y (by simp [hy]))]
    have hxa : ¬ recentGE x a := by
      have := hlt x (by simp)
      unfold recentGE
      omega
    simp only [List.orderedInsert, if_neg hxa]
    cases rest with
    | nil => rfl
    | cons y rest2 =>
      have hxy : recentGE x y := by
        have := hdesc.1 y (by simp)
        unfold recentGE
        omega
      simp only [List.orderedInsert, if_pos hxy]

theorem touch_recent_small (s : PersistedState) (p : String) (t : Int)
    (hfresh : ∀ x ∈ s.recents, x.path ≠ p)
    (hlen : s.recents.length + 1 ≤ 100) :
    (touch_recent s p t).recents = s.recents ++ [⟨p, t⟩] := by
  have hk := recents_filter_fresh s.recents p hfresh
  simp only [touch_recent, hk]
  rw [if_neg (by simp only [List.length_append, List.length_cons, List.length_nil]; omega)]

theorem touch_recent_full (s : PersistedState) (p : String) (t : Int)
    (hfresh : ∀ x ∈ s.recents, x.path ≠ p)
    (hlen : s.recents.length = 100)
    (hdesc : s.recents.Pairwise (fun x y => y.last_opened_utc < x.last_opened_utc))
    (ht : ∀ x ∈ s.recents, x.last_opened_utc < t) :
    (touch_recent s p t).recents = ⟨p, t⟩ :: s.recents.take 99 := by
  have hk := recents_filter_fresh s.recents p hfresh
  simp only [touch_recent, hk]
  rw [if_pos (by simp only [List.length_append, List.length_cons, List.length_nil]; omega)]
  rw [sortRecents_push_max ⟨p, t⟩ s.recents hdesc ht]
  rfl

theorem touch_recent_overflow_asc (s : PersistedState) (p : String) (t : Int)
    (hfresh : ∀ x ∈ s.recents, x.path ≠ p)
    (hlen : s.recents.length = 100)
    (hasc : s.recents.Pairwise (fun x y => x.last_opened_utc < y.last_opened_utc))
    (ht : ∀ x ∈ s.recents, x.last_opened_utc < t) :
    (touch_recent s p t).recents = ⟨p, t⟩ :: s.recents.reverse.take 99 := by
  have hk := recents_filter_fresh s.recents p hfresh
  simp only [touch_recent, hk]
  rw [if_pos (by simp only [List.length_append, List.length_cons, List.length_nil]; omega)]
  have hall : (s.recents ++ [(⟨p, t⟩ : RecentEntry)]).Pairwise
      (fun x y => x.last_opened_utc < y.last_opened_utc) := by
    rw [List.pairwise_append]
    exact ⟨hasc, List.pairwise_singleton _ _, fun a ha b hb => by
      simp only [List.mem_singleton] at hb
      subst hb
      exact ht a ha⟩
  rw [sortRecents_ascending _ hall]
  rw [List.reverse_append]
  rfl

theorem fresh_of_nodup (pre : List (String × Int)) (x : String × Int)
    (hx : x.1 ∉ pre.map Prod.fst) :
    ∀ y ∈ pre.map mkRecent, y.path ≠ x.1 := by
  intro y hy
  obtain ⟨pt, hpt, rfl⟩ := List.mem_map.mp hy
  intro he
  exact hx (he ▸ List.mem_map_of_mem Prod.fst hpt)

theorem touchAll_phase1 : ∀ (calls : List (String × Int)) (s : PersistedState)
    (pre : List (String × Int)),
    s.recents = pre.map mkRecent →
    (pre ++ calls).length ≤ 100 →
    ((pre ++ calls).map Prod.fst).Nodup →
    (touchAll s calls).recents = (pre ++ calls).map mkRecent := by
  intro calls
  induction calls with
  | nil =>
    intro s pre hs _ _
    simpa using hs
  | cons x rest ih =>
    intro s pre hs hlen hnd
    show (touchAll (touch_recent s x.1 x.2) rest).recents = _
    have hx1 : x.1 ∉ pre.map Prod.fst := by
      rw [List.map_append] at hnd
      have hdisj := List.disjoint_of_nodup_append hnd
      intro hmem
      exact hdisj hmem (by simp)
    have hstep : (touch_recent s x.1 x.2).recents = (pre ++ [x]).map mkRecent := by
      rw [touch_recent_small s x.1 x.2 (by rw [hs]; exact fresh_of_nodup pre x hx1)
        (by rw [hs]; simp only [List.length_map]; have := hlen; simp only [List.length_append,
          List.length_cons] at this; omega)]
      rw [hs, List.map_append]
      rfl
    have hassoc : (pre ++ [x]) ++ rest = pre ++ x :: rest := by
      rw [List.append_assoc]
      rfl
    have := ih (touch_recent s x.1 x.2) (pre ++ [x]) hstep
      (by rw [hassoc]; exact hlen) (by rw [hassoc]; exact hnd)
    rw [this, hassoc]

theorem reverse_take_99 (l : List RecentEntry) (h : l.length = 100) :
    l.reverse.take 99 = (l.drop 1).reverse := by
  rw [List.take_reverse]
  congr 1
  simp [h]

theorem touchAll_phase2 : ∀ (tail : List (String × Int)) (L : List (String × Int))
    (s : PersistedState),
    s.recents = (L.map mkRecent).reverse →
    L.length = 100 →
    ((L ++ tail).map Prod.fst).Nodup →
    ((L ++ tail).map Prod.snd).Pairwise (· < ·) →
    (touchAll s tail).recents = (((L ++ tail).drop tail.length).map mkRecent).reverse := by
  intro tail
  induction tail with
  | nil =>
    intro L s hs _ _ _
    simpa using hs
  | cons x rest ih =>
    intro L s hs hlen hnd hinc
    show (touchAll (touch_recent s x.1 x.2) rest).recents = _
    have hx1 : x.1 ∉ L.map Prod.fst := by
      rw [List.map_append] at hnd
      have hdisj := List.disjoint_of_nodup_append hnd
      intro hmem
      exact hdisj hmem (by simp)
    have hcross : ∀ a ∈ L, a.2 < x.2 := by
      intro a ha
      rw [List.map_append, List.pairwise_append] at hinc
      exact hinc.2.2 a.2 (List.mem_map_of_mem Prod.snd ha) x.2 (by simp)
    have hdesc : ((L.map mkRecent).reverse).Pairwise
        (fun a b => b.last_opened_utc < a.last_opened_utc) := by
      rw [List.pairwise_reverse, List.pairwise_map]
      have hLinc : (L.map Prod.snd).Pairwise (· < ·) := by
        rw [List.map_append] at hinc
        exact hinc.sublist (List.sublist_append_left _ _)
      rw [List.pairwise_map] at hLinc
      exact hLinc
    have hfresh : ∀ y ∈ s.recents, y.path ≠ x.1 := by
      rw [hs]
      intro y hy
      exact fresh_of_nodup L x hx1 y (List.mem_reverse.mp hy)
    have hstep : (touch_recent s x.1 x.2).recents =
        (((L.drop 1) ++ [x]).map mkRecent).reverse := by
      rw [touch_recent_full s x.1 x.2 hfresh
        (by rw [hs]; simp [hlen])
        (by rw [hs]; exact hdesc)
        (by rw [hs]; intro y hy
            obtain ⟨pt, hpt, rfl⟩ := List.mem_map.mp (List.mem_reverse.mp hy)
            exact hcross pt hpt)]
      rw [hs]
      rw [List.map_append, List.reverse_append]
      have htake : ((L.map mkRecent).reverse).take 99 = ((L.map mkRecent).drop 1).reverse := by
        rw [List.take_reverse]
        congr 1
        simp [hlen]
      rw [htake, ← List.map_drop]
      rfl
    have hshift : (L.drop 1 ++ [x]) ++ rest = (L ++ x :: rest).drop 1 := by
      rw [List.drop_append_of_le_length (by omega)]
      rw [List.append_assoc]
      rfl
    have := ih (L.drop 1 ++ [x]) (touch_recent s x.1 x.2) hstep
      (by simp only [List.length_append, List.length_drop, List.length_cons,
        List.length_nil, hlen])
      (by rw [hshift, List.map_drop]
          exact ((List.map Prod.fst (L ++ x :: rest)).drop_sublist 1).nodup hnd)
      (by rw [hshift, List.map_drop]
          exact hinc.sublist ((List.map Prod.snd (L ++ x :: rest)).drop_sublist 1))
    rw [this, hshift, List.drop_drop]
    have hfin : 1 + rest.length = (x :: rest).length := by
      simp [Nat.add_comm]
    rw [hfin]

theorem touch_recent_pathsNodup (s : PersistedState) (p : String) (t : Int)
    (h : pathsNodup s.recents) : pathsNodup (touch_recent s p t).recents := by
  unfold pathsNodup at *
  have hsubf : List.Sublist (s.recents.filter (fun e => e.path != p)) s.recents :=
    List.filter_sublist s.recents
  have hkept : ((s.recents.filter (fun e => e.path != p)).map RecentEntry.path).Nodup :=
    (hsubf.map RecentEntry.path).nodup h
  have hpnot : p ∉ (s.recents.filter (fun e => e.path != p)).map RecentEntry.path := by
    intro hm
    obtain ⟨e, he, hep⟩ := List.mem_map.mp hm
    have hf := List.of_mem_filter he
    rw [bne_iff_ne] at hf
    exact hf hep
  have hpush : ((s.recents.filter (fun e => e.path != p) ++ [(⟨p, t⟩ : RecentEntry)]).map
      RecentEntry.path).Nodup := by
    rw [List.map_append]
    refine List.Nodup.append hkept (by simp) ?_
    intro a ha hb
    simp only [List.map_cons, List.map_nil, List.mem_singleton] at hb
    subst hb
    exact hpnot ha
  unfold touch_recent
  simp only []
  split
  · rw [List.map_take]
    refine ((List.map RecentEntry.path _).take_sublist 100).nodup ?_
    have hperm := (List.perm_insertionSort recentGE
      (s.recents.filter (fun e => e.path != p) ++ [(⟨p, t⟩ : RecentEntry)])).map RecentEntry.path
    exact hperm.nodup_iff.mpr hpush
  · exact hpush

theorem touch_recent_only_new (s : PersistedState) (p : String) (t : Int) :
    ∀ q ∈ (touch_recent s p t).recents, q.path = p → q = ⟨p, t⟩ := by
  intro q hq hqp
  have hq2 : q ∈ s.recents.filter (fun e => e.path != p) ++ [(⟨p, t⟩ : RecentEntry)] := by
    unfold touch_recent at hq
    simp only [] at hq
    split at hq
    · have hmem := List.mem_of_mem_take hq
      unfold sortRecents at hmem
      exact (List.mem_insertionSort recentGE).mp hmem
    · exact hq
  rcases List.mem_append.mp hq2 with hmem | hmem
  · have hf := List.of_mem_filter hmem
    rw [bne_iff_ne] at hf
    exact absurd hqp hf
  · simpa using hmem

/-!  Claim theorems. -/

/-- Claim C1 states that every mutating store operation releases the in-memory
mutual-exclusion lock before the file write begins and never holds the lock
across a filesystem write.  The code does the opposite: on every
persist-reaching trace the caller's guard lives until the end of the function,
`Store::persist` re-acquires the same non-reentrant mutex inside that critical
section, and the filesystem writes happen at lock depth two.  This theorem
exhibits the violation on all seven operations and the nested acquire. -/
theorem lock_held_across_persist_write :
    writesOutsideLock 0 (addFavoriteTrace false) = false ∧
    writesOutsideLock 0 removeFavoriteTrace = false ∧
    writesOutsideLock 0 touchRecentTrace = false ∧
    writesOutsideLock 0 setTagTrace = false ∧
    writesOutsideLock 0 removeTagTrace = false ∧
    writesOutsideLock 0 (saveProfileTrace true) = false ∧
    writesOutsideLock 0 (deleteProfileTrace true) = false ∧
    locksAreUnnested 0 mutateTrace = false := by decide

/-- Claim C2: starting from an empty store, touching 105 distinct paths at
strictly increasing timestamps leaves exactly the 100 most recently touched
entries, stored and listed in descending `last_opened_utc` order; moreover
a touch removes any prior entry for the path (the only entry for the touched
path afterwards is the fresh one), so a store whose paths are unique keeps
them unique. -/
theorem touch_recent_cap_and_order (calls : List (String × Int))
    (hlen : calls.length = 105)
    (hpaths : (calls.map Prod.fst).Nodup)
    (htimes : (calls.map Prod.snd).Pairwise (· < ·)) :
    (touchAll emptyState calls).recents = ((calls.drop 5).map mkRecent).reverse ∧
    list_recent_directories (touchAll emptyState calls) = (touchAll emptyState calls).recents ∧
    (∀ s p t, pathsNodup s.recents → pathsNodup (touch_recent s p t).recents) ∧
    (∀ s p t, ∀ q ∈ (touch_recent s p t).recents, q.path = p → q = ⟨p, t⟩) := by
  have hsplit : calls.take 100 ++ calls.drop 100 = calls := List.take_append_drop 100 calls
  have hAlen : (calls.take 100).length = 100 := by
    simp [List.length_take, hlen]
  have hDlen5 : (calls.drop 100).length = 5 := by
    simp [List.length_drop, hlen]
  obtain ⟨y, B, hDeq⟩ : ∃ y B, calls.drop 100 = y :: B := by
    cases h : calls.drop 100 with
    | nil => rw [h] at hDlen5; simp at hDlen5
    | cons y B => exact ⟨y, B, rfl⟩
  have hBlen : B.length = 4 := by
    rw [hDeq] at hDlen5
    simp only [List.length_cons] at hDlen5
    omega
  have hfull : calls = calls.take 100 ++ y :: B := by
    conv_lhs => rw [← hsplit]
    rw [hDeq]
  have h1 : (touchAll emptyState (calls.take 100)).recents = (calls.take 100).map mkRecent := by
    have := touchAll_phase1 (calls.take 100) emptyState [] rfl
      (by simp [hAlen]) ?_
    · simpa using this
    · simp only [List.nil_append]
      have hnd := hpaths
      rw [hfull, List.map_append] at hnd
      exact hnd.sublist (List.sublist_append_left _ _)
  have hy1 : y.1 ∉ (calls.take 100).map Prod.fst := by
    have hnd := hpaths
    rw [hfull, List.map_append] at hnd
    have hdisj := List.disjoint_of_nodup_append hnd
    intro hmem
    exact hdisj hmem (by simp)
  have hcrossy : ∀ a ∈ calls.take 100, a.2 < y.2 := by
    intro a ha
    have hinc := htimes
    rw [hfull, List.map_append, List.pairwise_append] at hinc
    exact hinc.2.2 a.2 (List.mem_map_of_mem Prod.snd ha) y.2 (by simp)
  have hascA : ((calls.take 100).map mkRecent).Pairwise
      (fun a b => a.last_opened_utc < b.last_opened_utc) := by
    rw [List.pairwise_map]
    have h5 : ((calls.take 100).map Prod.snd).Pairwise (· < ·) := by
      have hinc := htimes
      rw [hfull, List.map_append] at hinc
      exact hinc.sublist (List.sublist_append_left _ _)
    rw [List.pairwise_map] at h5
    exact h5
  have s1def : touchAll emptyState calls =
      touchAll (touch_recent (touchAll emptyState (calls.take 100)) y.1 y.2) B := by
    conv_lhs => rw [hfull]
    rw [touchAll_append]
    rfl
  have h2 : (touch_recent (touchAll emptyState (calls.take 100)) y.1 y.2).recents =
      ((((calls.take 100).drop 1 ++ [y]).map mkRecent)).reverse := by
    rw [touch_recent_overflow_asc _ y.1 y.2
      (by rw [h1]; exact fresh_of_nodup (calls.take 100) y hy1)
      (by rw [h1]; simp only [List.length_map, hAlen])
      (by rw [h1]; exact hascA)
      (by rw [h1]
          intro x hx
          obtain ⟨pt, hpt, rfl⟩ := List.mem_map.mp hx
          exact hcrossy pt hpt)]
    rw [h1, List.map_append, List.reverse_append]
    rw [reverse_take_99 _ (by simp only [List.length_map, hAlen]), ← List.map_drop]
    rfl
  have hdrop1 : (calls.take 100 ++ (y :: B)).drop 1 = (calls.take 100).drop 1 ++ (y :: B) :=
    List.drop_append_of_le_length (by omega)
  have hshiftA : ((calls.take 100).drop 1 ++ [y]) ++ B = calls.drop 1 := by
    rw [List.append_assoc]
    show (calls.take 100).drop 1 ++ (y :: B) = calls.drop 1
    rw [← hdrop1, ← hfull]
  have h3 : (touchAll (touch_recent (touchAll emptyState (calls.take 100)) y.1 y.2) B).recents
      = ((calls.drop 5).map mkRecent).reverse := by
    have := touchAll_phase2 B ((calls.take 100).drop 1 ++ [y]) _ h2
      (by simp only [List.length_append, List.length_drop, List.length_cons,
        List.length_nil, hAlen])
      (by rw [hshiftA, List.map_drop]
          exact ((calls.map Prod.fst).drop_sublist 1).nodup hpaths)
      (by rw [hshiftA, List.map_drop]
          exact htimes.sublist ((calls.map Prod.snd).drop_sublist 1))
    rw [this, hshiftA, List.drop_drop, hBlen]
  have hmain : (touchAll emptyState calls).recents = ((calls.drop 5).map mkRecent).reverse := by
    rw [s1def, h3]
  refine ⟨hmain, ?_, fun s p t h => touch_recent_pathsNodup s p t h,
    fun s p t => touch_recent_only_new s p t⟩
  have hsorted : (((calls.drop 5).map mkRecent).reverse).Pairwise recentGE := by
    rw [List.pairwise_reverse]
    have h5 : ((calls.drop 5).map Prod.snd).Pairwise (· < ·) := by
      rw [List.map_drop]
      exact htimes.sublist ((calls.map Prod.snd).drop_sublist 5)
    rw [List.pairwise_map] at h5 ⊢
    exact h5.imp (fun hab => le_of_lt hab)
  unfold list_recent_directories sortRecents
  rw [hmain]
  exact List.Sorted.insertionSort_eq hsorted

/-- Witness for C2 at the 105 concrete calls `("0", 0)`, …, `("104", 104)`. -/
theorem touch_recent_cap_and_order_witness :
    demoCalls.length = 105 ∧
    (touchAll emptyState demoCalls).recents = ((demoCalls.drop 5).map mkRecent).reverse := by
  refine ⟨by decide, (touch_recent_cap_and_order demoCalls (by decide) (by decide)
    (by decide)).1⟩

/-- Claim C3 states that `search` treats `limit = 0` like `limit = 1`,
returning a non-empty result over a tree with a matching directory.  It does
not: the early-exit check `results.len() >= limit.saturating_mul(2)` fires
immediately when `limit = 0`, so the walk gathers nothing and the result is
empty, while the same call with `limit = 1` returns the matching directory. -/
theorem search_limit_zero_counterexample :
    search_directories demoWalk demoScore "p" 0 = Except.ok [] ∧
    search_directories demoWalk demoScore "p" 1 = Except.ok [⟨"/r/proj", "proj", 1⟩] := by
  constructor <;> rfl

/-- Claim C3 amended: `limit` is raised to at least 1 only in the final
truncation; the candidate-gathering loop stops once `2 × limit` results are
collected, so a search with `limit = 0` and a valid query always returns the
empty sequence, even over a tree containing a matching directory. -/
theorem search_limit_zero_empty (walk : List WalkEntry)
    (score : String → String → Option Int) (query : String) (hq : strTrim query ≠ "") :
    search_directories walk score query 0 = Except.ok [] := by
  unfold search_directories
  rw [if_neg hq]
  have h : searchLoop score query (usizeSatMul2 0) walk [] = [] :=
    searchLoop_stop _ _ _ _ _ (by simp [usizeSatMul2])
  simp [h, sortResults]

/-- Witness for the amended C3 on the concrete one-directory walk. -/
theorem search_limit_zero_empty_witness :
    strTrim "p" ≠ "" ∧ search_directories demoWalk demoScore "p" 0 = Except.ok [] :=
  ⟨by decide, search_limit_zero_empty demoWalk demoScore "p" (by decide)⟩

/-- Claim C4: `set_tag` matches existing entries case-insensitively on the tag
name.  For a path with no prior tags, setting tag `t1` and then re-setting a
tag `t2` equal to it up to ASCII letter case with color `#ffffff` leaves
exactly one tag entry for that path, with the new color and the original tag
casing `t1`; and when no entry matches, a new entry is appended whose color
defaults to `#0a84ff` when omitted. -/
theorem set_tag_case_insensitive_upsert (s : PersistedState) (p t1 t2 : String)
    (hfold : eqIgnoreAsciiCase t1 t2 = true)
    (hfresh : ∀ e ∈ s.tags, e.path ≠ p) :
    (set_tag (set_tag s p t1 none) p t2 (some "#ffffff")).tags.filter
        (fun e => e.path == p) = [⟨p, t1, "#ffffff"⟩] ∧
    (∀ tag c0, (∀ e ∈ s.tags, ¬(e.path = p ∧ eqIgnoreAsciiCase e.tag tag = true)) →
      (set_tag s p tag (some c0)).tags = s.tags ++ [⟨p, tag, c0⟩] ∧
      (set_tag s p tag none).tags = s.tags ++ [⟨p, tag, "#0a84ff"⟩]) := by
  have hmiss : ∀ (tag : String), ∀ e ∈ s.tags,
      ¬(e.path = p ∧ eqIgnoreAsciiCase e.tag tag = true) :=
    fun tag e he hc => hfresh e he hc.1
  constructor
  · have h1 : setTagList p t1 "#0a84ff" s.tags = s.tags ++ [⟨p, t1, "#0a84ff"⟩] :=
      setTagList_no_match p t1 _ s.tags (hmiss t1)
    have h2 : (set_tag (set_tag s p t1 none) p t2 (some "#ffffff")).tags =
        s.tags ++ [⟨p, t1, "#ffffff"⟩] := by
      simp only [set_tag, Option.getD_none, Option.getD_some]
      rw [h1, setTagList_skip p t2 _ s.tags _ (hmiss t2)]
      simp only [setTagList]
      rw [if_pos]
      simp only [beq_self_eq_true, Bool.true_and]
      exact hfold
    rw [h2, List.filter_append]
    have hnil : s.tags.filter (fun e => e.path == p) = [] := by
      rw [List.filter_eq_nil_iff]
      intro e he
      simp only [beq_iff_eq]
      exact hfresh e he
    rw [hnil]
    simp
  · intro tag c0 hno
    constructor
    · simp only [set_tag, Option.getD_some]
      exact setTagList_no_match p tag c0 s.tags hno
    · simp only [set_tag, Option.getD_none]
      exact setTagList_no_match p tag _ s.tags hno

/-- Witness for C4 on the claim's own scenario `Work` / `work` / `#ffffff`. -/
theorem set_tag_case_insensitive_upsert_witness :
    eqIgnoreAsciiCase "Work" "work" = true ∧
    (set_tag (set_tag emptyState "/p" "Work" none) "/p" "work" (some "#ffffff")).tags.filter
        (fun e => e.path == "/p") = [⟨"/p", "Work", "#ffffff"⟩] :=
  ⟨by decide, (set_tag_case_insensitive_upsert emptyState "/p" "Work" "work"
    (by decide) (by decide)).1⟩

/-- Claim C5: `save_profile` fails with the validation error exactly when the
trimmed name is empty; otherwise it returns and stores a record whose
`windows` is the given value (default 1) clamped into [1, 10], whose id is the
freshly generated UUID when none was supplied, and whose insertion either
replaces the matching existing profile in place (position preserved, no
duplicate) or appends. -/
theorem save_profile_validation_clamp_upsert (s : PersistedState) (id : Option String)
    (freshId name : String) (command working_dir terminal : Option String)
    (windows : Option Nat) :
    (save_profile s id freshId name command working_dir terminal windows
        = Except.error "profile name required" ↔ strTrim name = "") ∧
    (strTrim name ≠ "" →
      ∃ s2 prof, save_profile s id freshId name command working_dir terminal windows
          = Except.ok (s2, prof) ∧
        (1 ≤ prof.windows ∧ prof.windows ≤ 10) ∧
        (∀ w, windows = some w → 1 ≤ w → w ≤ 10 → prof.windows = w) ∧
        (∀ w, windows = some w → 10 ≤ w → prof.windows = 10) ∧
        (windows = none → prof.windows = 1) ∧
        (id = none → prof.id = freshId) ∧
        prof.name = strTrim name ∧
        ((∀ q ∈ s.profiles, q.id ≠ prof.id) → s2.profiles = s.profiles ++ [prof]) ∧
        (∀ l1 q l2, s.profiles = l1 ++ q :: l2 → (∀ x ∈ l1, x.id ≠ prof.id) →
          q.id = prof.id → s2.profiles = l1 ++ prof :: l2)) := by
  constructor
  · unfold save_profile
    split
    · rename_i h
      simp only [true_iff]
      exact h
    · rename_i h
      simp only [false_iff]
      simpa using h
  · intro hne
    unfold save_profile
    rw [if_neg hne]
    refine ⟨_, _, rfl, ?_, ?_, ?_, ?_, ?_, rfl, ?_, ?_⟩
    · constructor <;> (simp only []; omega)
    · intro w hw h1 h10
      simp only [hw, Option.getD_some]
      omega
    · intro w hw h10
      simp only [hw, Option.getD_some]
      omega
    · intro hw
      simp only [hw, Option.getD_none]
      decide
    · intro hid
      simp only [hid, Option.getD_none]
    · intro hfree
      exact upsertProfile_append _ s.profiles hfree
    · intro l1 q l2 heq hl1 hq
      simp only [heq]
      exact upsertProfile_replace _ q l1 l2 hl1 hq

/-- Witness for C5: `windows = 255` clamps to 10, the empty name fails. -/
theorem save_profile_validation_clamp_upsert_witness :
    strTrim "x" ≠ "" ∧
    (∃ s2 prof, save_profile emptyState none "u1" "x" none none none (some 255) =
        Except.ok (s2, prof) ∧ prof.windows = 10) ∧
    save_profile emptyState none "u1" "" none none none none =
      Except.error "profile name required" := by
  refine ⟨by decide, ?_,
    (save_profile_validation_clamp_upsert emptyState none "u1" "" none none none
      none).1.mpr (by decide)⟩
  obtain ⟨s2, prof, heq, -, -, h10, -, -, -, -, -⟩ :=
    (save_profile_validation_clamp_upsert emptyState none "u1" "x" none none none
      (some 255)).2 (by decide)
  exact ⟨s2, prof, heq, h10 255 rfl (by decide)⟩

/-- Claim C6: `delete_profile` fails with the not-found error exactly when no
stored profile has the requested id; in that case nothing was removed (the
retained collection is the whole collection), and when a matching profile
exists the call succeeds, removing precisely the entries with that id. -/
theorem delete_profile_not_found_iff (s : PersistedState) (id : String) :
    (delete_profile s id = Except.error "profile not found" ↔ ∀ q ∈ s.profiles, q.id ≠ id) ∧
    ((∀ q ∈ s.profiles, q.id ≠ id) → s.profiles.filter (fun q => q.id != id) = s.profiles) ∧
    ((∃ q ∈ s.profiles, q.id = id) →
      delete_profile s id =
        Except.ok { s with profiles := s.profiles.filter (fun q => q.id != id) } ∧
      ∀ q ∈ s.profiles.filter (fun q => q.id != id), q.id ≠ id) := by
  have hself : s.profiles.filter (fun q => q.id != id) = s.profiles ↔
      ∀ q ∈ s.profiles, q.id ≠ id := by
    rw [List.filter_eq_self]
    simp [bne_iff_ne]
  have hlen : (s.profiles.filter (fun q => q.id != id)).length = s.profiles.length ↔
      s.profiles.filter (fun q => q.id != id) = s.profiles := by
    constructor
    · intro h
      have hsubf : List.Sublist (s.profiles.filter (fun q => q.id != id)) s.profiles :=
        List.filter_sublist s.profiles
      exact hsubf.eq_of_length h
    · intro h
      rw [h]
  refine ⟨?_, fun h => hself.mpr h, ?_⟩
  · simp only [delete_profile]
    split
    · rename_i hcond
      simp only [true_iff]
      exact hself.mp (hlen.mp hcond)
    · rename_i hcond
      simp only [false_iff, reduceCtorEq]
      intro hall
      exact hcond (hlen.mpr (hself.mpr hall))
  · rintro ⟨q, hq, hid⟩
    have hne : ¬ (s.profiles.filter (fun r => r.id != id)).length = s.profiles.length := by
      intro hl
      exact hself.mp (hlen.mp hl) q hq hid
    constructor
    · simp only [delete_profile]
      rw [if_neg hne]
    · intro r hr
      have := List.of_mem_filter hr
      simpa [bne_iff_ne] using this

/-- Witness for C6: deleting the only profile succeeds; deleting from the
empty store fails with the not-found error. -/
theorem delete_profile_not_found_iff_witness :
    delete_profile { emptyState with profiles := [⟨"u1", "x", none, none, none, 1⟩] } "u1" =
      Except.ok emptyState ∧
    delete_profile emptyState "u1" = Except.error "profile not found" := by
  constructor
  · have h := (delete_profile_not_found_iff
      { emptyState with profiles := [⟨"u1", "x", none, none, none, 1⟩] } "u1").2.2
      ⟨⟨"u1", "x", none, none, none, 1⟩, by decide, by decide⟩
    exact h.1
  · exact (delete_profile_not_found_iff emptyState "u1").1.mpr (by decide)

/-- Claim C7: for a valid (trim-non-empty) query, the search succeeds and the
returned sequence is sorted by descending score with ties broken by ascending
name, contains at most `limit` entries, and is the empty sequence, not an
error, when no directory name matches the query. -/
theorem search_ranking_sorted_truncated (walk : List WalkEntry)
    (score : String → String → Option Int) (query : String) (limit : Nat)
    (hq : strTrim query ≠ "") :
    ∃ res, search_directories walk score query limit = Except.ok res ∧
      res.Sorted rankRel ∧
      res.length ≤ limit ∧
      ((∀ e ∈ walk, ∀ nm, e.file_name = some nm → score nm query = none) → res = []) := by
  unfold search_directories
  rw [if_neg hq]
  refine ⟨_, rfl, ?_, ?_, ?_⟩
  · exact (List.sorted_insertionSort rankRel _).sublist (List.take_sublist _ _)
  · cases limit with
    | zero =>
      rw [searchLoop_stop _ _ _ _ _ (by simp [usizeSatMul2])]
      simp [sortResults]
    | succ n =>
      calc ((sortResults _).take (max (n + 1) 1)).length ≤ max (n + 1) 1 :=
        List.length_take_le _ _
      _ = n + 1 := by omega
  · intro hno
    rw [searchLoop_no_match score query _ walk hno []]
    simp [sortResults]

/-- Witness for C7 on the concrete one-directory walk with limit 1. -/
theorem search_ranking_sorted_truncated_witness :
    strTrim "p" ≠ "" ∧
    ∃ res, search_directories demoWalk demoScore "p" 1 = Except.ok res ∧ res.length ≤ 1 := by
  refine ⟨by decide, ?_⟩
  obtain ⟨res, heq, -, hlen1, -⟩ := search_ranking_sorted_truncated demoWalk demoScore "p" 1
    (by decide)
  exact ⟨res, heq, hlen1⟩

/-- Claim C8: adding a favorite is idempotent; on a store where the path
occurs at most once, adding it twice leaves exactly one entry for it, and
removing a path that is not a favorite leaves the store unchanged (and,
at the state level, reports no error). -/
theorem favorite_idempotence (s : PersistedState) (p : String)
    (hcount : s.favorites.count p ≤ 1) :
    add_favorite (add_favorite s p) p = add_favorite s p ∧
    (add_favorite (add_favorite s p) p).favorites.count p = 1 ∧
    (p ∉ s.favorites → remove_favorite s p = s) := by
  refine ⟨?_, ?_, ?_⟩
  · by_cases h : p ∈ s.favorites
    · simp [add_favorite, h]
    · simp [add_favorite, h]
  · by_cases h : p ∈ s.favorites
    · have h1 : s.favorites.count p = 1 :=
        le_antisymm hcount (List.count_pos_iff.mpr h)
      simp [add_favorite, h, h1]
    · have h0 : s.favorites.count p = 0 := List.count_eq_zero.mpr h
      simp [add_favorite, h, List.count_append, h0]
  · intro h
    have hf : s.favorites.filter (fun q => q != p) = s.favorites := by
      rw [List.filter_eq_self]
      intro a ha
      simp only [bne_iff_ne, ne_eq]
      exact fun e => h (e ▸ ha)
    simp [remove_favorite, hf]

/-- Witness for C8 on the empty store and the path `/a`. -/
theorem favorite_idempotence_witness :
    emptyState.favorites.count "/a" ≤ 1 ∧
    add_favorite (add_favorite emptyState "/a") "/a" = add_favorite emptyState "/a" :=
  ⟨by decide, (favorite_idempotence emptyState "/a" (by decide)).1⟩

/-- Claim C9: a failing disk write after a mutation neither rolls back the
in-memory change nor fails the call: with `writeOk = false` every mutating
call still returns the mutated state and reports success (for the fallible
operations, whenever the in-memory mutation itself succeeded). -/
theorem persist_failure_swallowed (s : PersistedState) (p tag nm freshId pid : String)
    (oid : Option String) (command working_dir terminal color : Option String)
    (windows : Option Nat) (now : Int) :
    add_favorite_call false s p = (add_favorite s p, Except.ok ()) ∧
    remove_favorite_call false s p = (remove_favorite s p, Except.ok ()) ∧
    touch_recent_call false s p now = (touch_recent s p now, Except.ok ()) ∧
    set_tag_call false s p tag color = (set_tag s p tag color, Except.ok ()) ∧
    remove_tag_call false s p tag = (remove_tag s p tag, Except.ok ()) ∧
    (∀ s2 prof, save_profile s oid freshId nm command working_dir terminal windows
        = Except.ok (s2, prof) →
      save_profile_call false s oid freshId nm command working_dir terminal windows
        = (s2, Except.ok prof)) ∧
    (∀ s2, delete_profile s pid = Except.ok s2 →
      delete_profile_call false s pid = (s2, Except.ok ())) := by
  refine ⟨?_, rfl, rfl, rfl, rfl, ?_, ?_⟩
  · unfold add_favorite_call add_favorite
    split <;> rfl
  · intro s2 prof h
    unfold save_profile_call
    rw [h]
  · intro s2 h
    unfold delete_profile_call
    rw [h]

/-- Witness for C9: with a failing write, adding a favorite and saving a
profile on the empty store still report success with the mutated state. -/
theorem persist_failure_swallowed_witness :
    add_favorite_call false emptyState "/a" = (add_favorite emptyState "/a", Except.ok ()) ∧
    save_profile_call false emptyState none "u1" "x" none none none none =
      ({ emptyState with profiles := [⟨"u1", "x", none, none, none, 1⟩] },
        Except.ok ⟨"u1", "x", none, none, none, 1⟩) := by
  have h := persist_failure_swallowed emptyState "/a" "t" "x" "u1" "u1" none none none none
    none none 0
  refine ⟨h.1, ?_⟩
  have hs := h.2.2.2.2.2.1 { emptyState with profiles := [⟨"u1", "x", none, none, none, 1⟩] }
    ⟨"u1", "x", none, none, none, 1⟩ (by rfl)
  exact hs

/-- Claim C10: a walk entry whose file name is not valid UTF-8 is silently
skipped by the search: inserting such an entry anywhere into the walk leaves
the result unchanged (no score, no output, no error). -/
theorem search_skips_invalid_utf8 (walk1 walk2 : List WalkEntry) (bad : WalkEntry)
    (score : String → String → Option Int) (query : String) (limit : Nat)
    (hbad : bad.file_name = none) :
    search_directories (walk1 ++ bad :: walk2) score query limit =
      search_directories (walk1 ++ walk2) score query limit := by
  unfold search_directories
  by_cases hq : strTrim query = ""
  · rw [if_pos hq, if_pos hq]
  · rw [if_neg hq, if_neg hq, searchLoop_skip_invalid score query _ bad hbad walk1 walk2 []]

/-- Witness for C10: a directory entry with an unreadable name contributes
nothing to the search over a one-entry walk. -/
theorem search_skips_invalid_utf8_witness :
    (⟨"/r/bin", none, some ⟨true⟩⟩ : WalkEntry).file_name = none ∧
    search_directories [⟨"/r/bin", none, some ⟨true⟩⟩] demoScore "p" 5 =
      search_directories [] demoScore "p" 5 :=
  ⟨rfl, search_skips_invalid_utf8 [] [] ⟨"/r/bin", none, some ⟨true⟩⟩ demoScore "p" 5 rfl⟩
